import Mathlib

/-!
Shallow embedding of vast's `HighLevelTypeConverter`
(`lib/vast/Translation/HighLevelTypeConverter.cpp`) and proofs about it.

The converter maps clang types to high-level dialect IR types.  The C++
recursion is not structurally bounded (record bodies are fetched from the
declaration context by name), so the embedding threads an explicit fuel
argument; `ConvError.outOfFuel` plays the role of non-termination.  The
data-layout side table (`ctx.data_layout().try_emplace`) is modelled by
explicit state passing of an association list keyed by the produced
IR type.  `CHECK`/`UNREACHABLE` failures are modelled by `Except.error`.
-/

namespace Vast

/-- Model of `clang::Qualifiers`, restricted to the two bits the converter reads. -/
structure Quals where
  const : Bool
  volatile : Bool
deriving DecidableEq, Repr

/-- Model of `vast::hl::IntegerKind`. -/
inductive IntegerKind where
  | char | short | int | long | longlong | int128
deriving DecidableEq, Repr

/-- Model of `vast::hl::FloatingKind`. -/
inductive FloatingKind where
  | half | bfloat16 | float | double | longdouble | float128
deriving DecidableEq, Repr

/-- The clang builtin kinds (`clang::BuiltinType::Kind`) that the converter
distinguishes.  `wchar_u`/`wchar_s` stand for integer builtins that fall
through `get_integer_kind`'s exhaustive switch; `nullptr_t` stands for a
builtin that is neither void, bool, integer nor floating. -/
inductive BuiltinKind where
  | void | bool
  | char_u | uchar | char_s | schar
  | short | ushort | int | uint | long | ulong
  | longlong | ulonglong | int128 | uint128
  | wchar_u | wchar_s
  | half | float16 | bfloat16 | float | double | longdouble | float128
  | nullptr_t
deriving DecidableEq, Repr

/-- The high-level dialect IR types produced by the converter.  The six
integer types (`CharType`, `ShortType`, ...) are folded into one
constructor indexed by `IntegerKind`, and likewise for the floating
types; `RecordType`'s `FieldInfo` list is a list of name/type pairs. -/
inductive IRType where
  | void
  | bool (const volatile : Bool)
  | integer (kind : IntegerKind) (unsigned const volatile : Bool)
  | floating (kind : FloatingKind) (const volatile : Bool)
  | pointer (pointee : IRType) (const volatile : Bool)
  | constantArray (element : IRType) (size : Nat) (const volatile : Bool)
  | record (fields : List (String × IRType))
  | namedType (name : String)
  | function (params : List IRType) (ret : IRType)
deriving Repr

mutual

/-- Structural boolean equality on `IRType` (deriving cannot handle the
nested lists). -/
def IRType.beq : IRType → IRType → Bool
  | .void, .void => true
  | .bool c v, .bool c' v' => c == c' && v == v'
  | .integer k u c v, .integer k' u' c' v' => k == k' && u == u' && c == c' && v == v'
  | .floating k c v, .floating k' c' v' => k == k' && c == c' && v == v'
  | .pointer p c v, .pointer p' c' v' => IRType.beq p p' && c == c' && v == v'
  | .constantArray e n c v, .constantArray e' n' c' v' =>
      IRType.beq e e' && n == n' && c == c' && v == v'
  | .record fs, .record gs => IRType.beqFields fs gs
  | .namedType n, .namedType m => n == m
  | .function ps r, .function qs s => IRType.beqList ps qs && IRType.beq r s
  | _, _ => false

def IRType.beqList : List IRType → List IRType → Bool
  | [], [] => true
  | a :: as, b :: bs => IRType.beq a b && IRType.beqList as bs
  | _, _ => false

def IRType.beqFields : List (String × IRType) → List (String × IRType) → Bool
  | [], [] => true
  | (n, a) :: as, (m, b) :: bs => n == m && IRType.beq a b && IRType.beqFields as bs
  | _, _ => false

end

mutual

theorem IRType.beq_refl : (t : IRType) → IRType.beq t t = true
  | .void => rfl
  | .bool _ _ => by simp [IRType.beq]
  | .integer _ _ _ _ => by simp [IRType.beq]
  | .floating _ _ _ => by simp [IRType.beq]
  | .pointer p _ _ => by simp [IRType.beq, IRType.beq_refl p]
  | .constantArray e _ _ _ => by simp [IRType.beq, IRType.beq_refl e]
  | .record fs => by simp [IRType.beq, IRType.beqFields_refl fs]
  | .namedType _ => by simp [IRType.beq]
  | .function ps r => by simp [IRType.beq, IRType.beqList_refl ps, IRType.beq_refl r]

theorem IRType.beqList_refl : (ts : List IRType) → IRType.beqList ts ts = true
  | [] => rfl
  | t :: ts => by simp [IRType.beqList, IRType.beq_refl t, IRType.beqList_refl ts]

theorem IRType.beqFields_refl : (fs : List (String × IRType)) → IRType.beqFields fs fs = true
  | [] => rfl
  | (_, t) :: fs => by simp [IRType.beqFields, IRType.beq_refl t, IRType.beqFields_refl fs]

end

mutual

theorem IRType.eq_of_beq : (a b : IRType) → IRType.beq a b = true → a = b
  | .void, b, h => by cases b <;> simp_all [IRType.beq]
  | .bool _ _, b, h => by cases b <;> simp_all [IRType.beq]
  | .integer _ _ _ _, b, h => by cases b <;> simp_all [IRType.beq]
  | .floating _ _ _, b, h => by cases b <;> simp_all [IRType.beq]
  | .pointer p c v, b, h => by
      cases b
      case pointer p' c' v' =>
        simp only [IRType.beq, Bool.and_eq_true, beq_iff_eq] at h
        obtain ⟨⟨hp, hc⟩, hv⟩ := h
        rw [IRType.eq_of_beq p p' hp, hc, hv]
      all_goals simp [IRType.beq] at h
  | .constantArray e n c v, b, h => by
      cases b
      case constantArray e' n' c' v' =>
        simp only [IRType.beq, Bool.and_eq_true, beq_iff_eq] at h
        obtain ⟨⟨⟨he, hn⟩, hc⟩, hv⟩ := h
        rw [IRType.eq_of_beq e e' he, hn, hc, hv]
      all_goals simp [IRType.beq] at h
  | .record fs, b, h => by
      cases b
      case record gs => rw [IRType.eqFields_of_beq fs gs (by simpa [IRType.beq] using h)]
      all_goals simp [IRType.beq] at h
  | .namedType _, b, h => by cases b <;> simp_all [IRType.beq]
  | .function ps r, b, h => by
      cases b
      case function qs s =>
        simp only [IRType.beq, Bool.and_eq_true] at h
        obtain ⟨hps, hr⟩ := h
        rw [IRType.eqList_of_beq ps qs hps, IRType.eq_of_beq r s hr]
      all_goals simp [IRType.beq] at h

theorem IRType.eqList_of_beq : (as bs : List IRType) → IRType.beqList as bs = true → as = bs
  | [], [], _ => rfl
  | [], _ :: _, h => by simp [IRType.beqList] at h
  | _ :: _, [], h => by simp [IRType.beqList] at h
  | a :: as, b :: bs, h => by
      simp only [IRType.beqList, Bool.and_eq_true] at h
      rw [IRType.eq_of_beq a b h.1, IRType.eqList_of_beq as bs h.2]

theorem IRType.eqFields_of_beq :
    (as bs : List (String × IRType)) → IRType.beqFields as bs = true → as = bs
  | [], [], _ => rfl
  | [], _ :: _, h => by simp [IRType.beqFields] at h
  | _ :: _, [], h => by simp [IRType.beqFields] at h
  | (n, a) :: as, (m, b) :: bs, h => by
      simp only [IRType.beqFields, Bool.and_eq_true, beq_iff_eq] at h
      obtain ⟨⟨hn, hab⟩, ht⟩ := h
      rw [hn, IRType.eq_of_beq a b hab, IRType.eqFields_of_beq as bs ht]

end

instance : DecidableEq IRType := fun a b =>
  if h : IRType.beq a b = true then isTrue (IRType.eq_of_beq a b h)
  else isFalse fun he => h (he ▸ IRType.beq_refl a)

/-! ## Source type model

`CType` models the clang types the converter dispatches on
(`clang::Type`); `CQualType` models `clang::QualType`, a type together
with the qualifiers of one occurrence.  Record and enum types carry
their declaration's identifier (`none` = anonymous); a record's field
list is fetched from the translation context by name, mirroring
`ty->getDecl()->fields()`.  `elaborated` is the one kind of type sugar
relevant to the converter; `unsupported` stands for any clang type
outside the six supported kinds. -/

mutual

inductive CType where
  | builtin (k : BuiltinKind)
  | pointer (pointee : CQualType)
  | record (name : Option String)
  | enum (name : Option String)
  | constantArray (element : CQualType) (size : Nat)
  | function (proto : Bool) (params : List CQualType) (ret : CQualType)
  | elaborated (named : CQualType)
  | unsupported

inductive CQualType where
  | mk (quals : Quals) (ty : CType)

end

/-- Model of `QualType::getQualifiers`. -/
def CQualType.quals : CQualType → Quals
  | .mk q _ => q

/-- Model of `QualType::getTypePtr`. -/
def CQualType.ty : CQualType → CType
  | .mk _ t => t

/-- Model of `Type::getUnqualifiedDesugaredType`: strip all sugar. -/
def desugar : CType → CType
  | .elaborated (.mk _ t) => desugar t
  | t => t

/-- Model of `Type::isFunctionType` — the check is on the canonical type, so it
sees through sugar. -/
def CType.isFunctionType (t : CType) : Bool :=
  match desugar t with
  | .function _ _ _ => true
  | _ => false

/-- The translation context consumed by the converter: the type
registry's declared (`ctx.type_decls`) and defined (`ctx.type_defs`)
name sets, plus the AST's record-definition environment giving each
record's fields in declaration order. -/
structure Ctx where
  type_decls : List String
  type_defs : List String
  fields : String → List (String × CQualType)

/-! ## Data layout recorder

`ctx.data_layout()` is a map from produced IR type to the original
source type (from which size/alignment facts are computed); modelled as
an association list with `try_emplace` insert-if-absent semantics. -/

/-- The data layout recorder's state. -/
abbrev DLState := List (IRType × CType)

/-- Is an entry with the given IR type key present? -/
def containsKey (dl : DLState) (key : IRType) : Bool :=
  dl.any fun e => decide (e.1 = key)

/-- How many entries carry the given key? -/
def countKey (dl : DLState) (key : IRType) : Nat :=
  (dl.filter fun e => decide (e.1 = key)).length

/-- Model of `llvm::DenseMap::try_emplace`: insert only if the key is absent. -/
def try_emplace (dl : DLState) (key : IRType) (value : CType) : DLState :=
  if containsKey dl key then dl else dl ++ [(key, value)]

/-- No two entries share a key. -/
def NodupKeys (dl : DLState) : Prop :=
  (dl.map Prod.fst).Nodup

/-! ## The converter

Errors: `CHECK`/`UNREACHABLE` hard failures become `Except.error`;
`outOfFuel` models non-termination of the unbounded C++ recursion. -/

inductive ConvError where
  | unknownTypeKind
  | unknownIntegerKind
  | unknownFloatingKind
  | unknownBuiltinKind
  | unsupportedAnonymousRecord
  | unsupportedAnonymousEnum
  | declarationOrderViolation
  | outOfFuel
deriving DecidableEq, Repr

/-- Result of a conversion step: produced IR type plus recorder state. -/
abbrev ConvResult := Except ConvError (IRType × DLState)

/-- The recursive-conversion callback shape (`convert(clang::QualType)`
with the context fixed). -/
abbrev Conv := DLState → CQualType → ConvResult

/-- Model of `BuiltinType::isVoidType`. -/
def isVoidType : BuiltinKind → Bool
  | .void => true
  | _ => false

/-- Model of `BuiltinType::isBooleanType`. -/
def isBooleanType : BuiltinKind → Bool
  | .bool => true
  | _ => false

/-- Model of `BuiltinType::isIntegerType`: the kinds from `Bool` through
`Int128`. -/
def isIntegerType : BuiltinKind → Bool
  | .bool | .char_u | .uchar | .char_s | .schar
  | .short | .ushort | .int | .uint | .long | .ulong
  | .longlong | .ulonglong | .int128 | .uint128
  | .wchar_u | .wchar_s => true
  | _ => false

/-- Model of `Type::isUnsignedIntegerType`: `Bool` and the unsigned kinds. -/
def isUnsignedIntegerType : BuiltinKind → Bool
  | .bool | .char_u | .uchar | .ushort | .uint | .ulong
  | .ulonglong | .uint128 | .wchar_u => true
  | _ => false

/-- Model of `Type::isFloatingType` restricted to the builtins modelled here. -/
def isFloatingType : BuiltinKind → Bool
  | .half | .float16 | .bfloat16 | .float | .double
  | .longdouble | .float128 => true
  | _ => false

/-- Model of `get_integer_kind`; `none` models the `UNREACHABLE` default. -/
def get_integer_kind : BuiltinKind → Option IntegerKind
  | .char_u | .uchar | .char_s | .schar => some .char
  | .short | .ushort => some .short
  | .int | .uint => some .int
  | .long | .ulong => some .long
  | .longlong | .ulonglong => some .longlong
  | .int128 | .uint128 => some .int128
  | _ => none

/-- Model of `get_floating_kind`; `none` models the `UNREACHABLE` default. -/
def get_floating_kind : BuiltinKind → Option FloatingKind
  | .half | .float16 => some .half
  | .bfloat16 => some .bfloat16
  | .float => some .float
  | .double => some .double
  | .longdouble => some .longdouble
  | .float128 => some .float128
  | _ => none

/-- Model of `do_convert(const BuiltinType*, Quals)`. -/
def do_convert_builtin (ty : BuiltinKind) (quals : Quals) : Except ConvError IRType :=
  let v := quals.volatile
  let c := quals.const
  if isVoidType ty then .ok .void
  else if isBooleanType ty then .ok (.bool c v)
  else if isIntegerType ty then
    let u := isUnsignedIntegerType ty
    match get_integer_kind ty with
    | some k => .ok (.integer k u c v)
    | none => .error .unknownIntegerKind
  else if isFloatingType ty then
    match get_floating_kind ty with
    | some k => .ok (.floating k c v)
    | none => .error .unknownFloatingKind
  else .error .unknownBuiltinKind

/-- Model of the `pointee` lambda of `do_convert(const PointerType*, Quals)`:
`getPointeeType()`, unwrapping one level of `ElaboratedType` sugar via
`getNamedType()`. -/
def pointer_pointee (p : CQualType) : CQualType :=
  match p with
  | .mk _ (.elaborated named) => named
  | _ => p

/-- Model of `dyn_cast<TagType>(pointee)` followed by `getDecl()->getName()`:
`some` iff the type (no desugaring) is a record or enum; anonymous tags
read back as the empty name. -/
def tag_decl_name : CType → Option String
  | .record nm => some (nm.getD "")
  | .enum nm => some (nm.getD "")
  | _ => none

/-- Model of `do_convert(const clang::PointerType*, Quals)`. -/
def do_convert_pointer (ctx : Ctx) (conv : Conv) (dl : DLState) (p : CQualType)
    (quals : Quals) : ConvResult :=
  let pointee := pointer_pointee p
  let convertedPointee : ConvResult :=
    -- stop recursive type generation via name alias
    match tag_decl_name pointee.ty with
    | some tag_name =>
      if tag_name ∈ ctx.type_decls then .ok (.namedType tag_name, dl)
      else conv dl pointee
    | none => conv dl pointee
  convertedPointee.map fun r => (.pointer r.1 quals.const quals.volatile, r.2)

/-- The field loop of `do_convert(const clang::RecordType*, Quals)`:
convert each field's type (with that field's own qualifiers) in
declaration order, threading the recorder state. -/
def convert_fields (conv : Conv) :
    List (String × CQualType) → DLState → Except ConvError (List (String × IRType) × DLState)
  | [], dl => .ok ([], dl)
  | (field_name, field_ty) :: rest, dl =>
    match conv dl field_ty with
    | .error e => .error e
    | .ok (t, dl) =>
      match convert_fields conv rest dl with
      | .error e => .error e
      | .ok (ts, dl) => .ok ((field_name, t) :: ts, dl)

/-- Model of `do_convert(const clang::RecordType*, Quals)`.  The C++ tests
`!type_defs.count(name)` first; the branches here are the same three
outcomes.  The qualifier argument is accepted and ignored, as in the
source. -/
def do_convert_record (ctx : Ctx) (conv : Conv) (dl : DLState) :
    Option String → Quals → ConvResult
  | none, _ => .error .unsupportedAnonymousRecord
  | some name, _ =>
    if name ∈ ctx.type_defs then .ok (.namedType name, dl)
    else if name ∈ ctx.type_decls then
      (convert_fields conv (ctx.fields name) dl).map fun r => (.record r.1, r.2)
    else .error .declarationOrderViolation

/-- Model of `do_convert(const clang::EnumType*, Quals)`. -/
def do_convert_enum : Option String → Quals → Except ConvError IRType
  | none, _ => .error .unsupportedAnonymousEnum
  | some name, _ => .ok (.namedType name)

/-- Model of `do_convert(const clang::ConstantArrayType*, Quals)`. -/
def do_convert_array (conv : Conv) (dl : DLState) (element : CQualType) (size : Nat)
    (quals : Quals) : ConvResult :=
  (conv dl element).map fun r => (.constantArray r.1 size quals.const quals.volatile, r.2)

/-- The parameter loop of `convert(const clang::FunctionType*)`. -/
def convert_params (conv : Conv) :
    List CQualType → DLState → Except ConvError (List IRType × DLState)
  | [], dl => .ok ([], dl)
  | p :: rest, dl =>
    match conv dl p with
    | .error e => .error e
    | .ok (t, dl) =>
      match convert_params conv rest dl with
      | .error e => .error e
      | .ok (ts, dl) => .ok (t :: ts, dl)

/-- Model of `convert(const clang::FunctionType*)`: parameters (only when a
prototype is present) then the return type. -/
def convert_function_type (conv : Conv) (dl : DLState) (proto : Bool)
    (params : List CQualType) (ret : CQualType) : ConvResult :=
  match (if proto then convert_params conv params dl else .ok ([], dl)) with
  | .error e => .error e
  | .ok (args, dl) => (conv dl ret).map fun r => (.function args r.1, r.2)

/-- Model of `do_convert(const clang::Type*, Quals)`: desugar, then dispatch by
kind. -/
def do_convert (ctx : Ctx) (conv : Conv) (dl : DLState) (ty : CType)
    (quals : Quals) : ConvResult :=
  match desugar ty with
  | .builtin b => (do_convert_builtin b quals).map fun t => (t, dl)
  | .pointer p => do_convert_pointer ctx conv dl p quals
  | .record nm => do_convert_record ctx conv dl nm quals
  | .enum nm => (do_convert_enum nm quals).map fun t => (t, dl)
  | .constantArray element size => do_convert_array conv dl element size quals
  | .function proto params ret => convert_function_type conv dl proto params ret
  | .elaborated _ => .error .unknownTypeKind
  | .unsupported => .error .unknownTypeKind

/-- One unfolding of `dl_aware_convert`: run `do_convert`, then record
the produced type in the data layout recorder unless the source type is
a function type. -/
def convert_step (ctx : Ctx) (conv : Conv) (dl : DLState) (ty : CType)
    (quals : Quals) : ConvResult :=
  match do_convert ctx conv dl ty quals with
  | .error e => .error e
  | .ok (out, dl') =>
    if ty.isFunctionType then .ok (out, dl')
    else .ok (out, try_emplace dl' out ty)

/-- Definition `dl_aware_convert` = `convert(const clang::Type*, Quals)`, the public
entry point, with explicit fuel. -/
def dl_aware_convert : Nat → Ctx → DLState → CType → Quals → ConvResult
  | 0, _, _, _, _ => .error .outOfFuel
  | fuel + 1, ctx, dl, ty, quals =>
    convert_step ctx (fun dl qt => dl_aware_convert fuel ctx dl qt.ty qt.quals) dl ty quals

/-- Model of `convert(clang::QualType)`: split a qualified type into its type
pointer and qualifiers. -/
def convert (fuel : Nat) (ctx : Ctx) (dl : DLState) (qt : CQualType) : ConvResult :=
  dl_aware_convert fuel ctx dl qt.ty qt.quals

theorem dl_aware_convert_succ (fuel : Nat) (ctx : Ctx) (dl : DLState) (ty : CType)
    (quals : Quals) :
    dl_aware_convert (fuel + 1) ctx dl ty quals =
      convert_step ctx (convert fuel ctx) dl ty quals := rfl

/-! ## Dispatch equations for `do_convert` -/

section DispatchEq

variable (ctx : Ctx) (conv : Conv) (dl : DLState) (ty : CType) (quals : Quals)

theorem do_convert_eq_builtin {b : BuiltinKind} (hdes : desugar ty = .builtin b) :
    do_convert ctx conv dl ty quals = (do_convert_builtin b quals).map fun t => (t, dl) := by
  unfold do_convert; rw [hdes]

theorem do_convert_eq_pointer {p : CQualType} (hdes : desugar ty = .pointer p) :
    do_convert ctx conv dl ty quals = do_convert_pointer ctx conv dl p quals := by
  unfold do_convert; rw [hdes]

theorem do_convert_eq_record {nm : Option String} (hdes : desugar ty = .record nm) :
    do_convert ctx conv dl ty quals = do_convert_record ctx conv dl nm quals := by
  unfold do_convert; rw [hdes]

theorem do_convert_eq_enum {nm : Option String} (hdes : desugar ty = .enum nm) :
    do_convert ctx conv dl ty quals = (do_convert_enum nm quals).map fun t => (t, dl) := by
  unfold do_convert; rw [hdes]

theorem do_convert_eq_array {element : CQualType} {size : Nat}
    (hdes : desugar ty = .constantArray element size) :
    do_convert ctx conv dl ty quals = do_convert_array conv dl element size quals := by
  unfold do_convert; rw [hdes]

theorem do_convert_eq_function {proto : Bool} {params : List CQualType} {ret : CQualType}
    (hdes : desugar ty = .function proto params ret) :
    do_convert ctx conv dl ty quals = convert_function_type conv dl proto params ret := by
  unfold do_convert; rw [hdes]

theorem do_convert_eq_elaborated {named : CQualType} (hdes : desugar ty = .elaborated named) :
    do_convert ctx conv dl ty quals = .error .unknownTypeKind := by
  unfold do_convert; rw [hdes]

theorem do_convert_eq_unsupported (hdes : desugar ty = .unsupported) :
    do_convert ctx conv dl ty quals = .error .unknownTypeKind := by
  unfold do_convert; rw [hdes]

end DispatchEq

/-! ## Recorder-state lemmas -/

theorem containsKey_iff_mem (dl : DLState) (k : IRType) :
    containsKey dl k = true ↔ k ∈ dl.map Prod.fst := by
  simp [containsKey, List.any_eq_true, List.mem_map]

theorem containsKey_append (dl dl' : DLState) (k : IRType) :
    containsKey (dl ++ dl') k = (containsKey dl k || containsKey dl' k) := by
  simp [containsKey, List.any_append]

theorem containsKey_try_emplace_self (dl : DLState) (k : IRType) (v : CType) :
    containsKey (try_emplace dl k v) k = true := by
  rw [try_emplace]
  split
  · assumption
  · simp [containsKey_append, containsKey]

theorem containsKey_try_emplace_mono (dl : DLState) (k k' : IRType) (v : CType)
    (h : containsKey dl k' = true) : containsKey (try_emplace dl k v) k' = true := by
  rw [try_emplace]
  split
  · exact h
  · simp [containsKey_append, h]

theorem try_emplace_of_containsKey (dl : DLState) (k : IRType) (v : CType)
    (h : containsKey dl k = true) : try_emplace dl k v = dl := by
  simp [try_emplace, h]

theorem countKey_cons (e : IRType × CType) (rest : DLState) (k : IRType) :
    countKey (e :: rest) k = (if e.1 = k then 1 else 0) + countKey rest k := by
  by_cases h : e.1 = k
  · simp [countKey, List.filter_cons, h, Nat.add_comm]
  · simp [countKey, List.filter_cons, h]

theorem countKey_append (dl dl' : DLState) (k : IRType) :
    countKey (dl ++ dl') k = countKey dl k + countKey dl' k := by
  simp [countKey, List.filter_append]

theorem countKey_try_emplace_of_ne (dl : DLState) (k k' : IRType) (v : CType)
    (hne : k ≠ k') : countKey (try_emplace dl k v) k' = countKey dl k' := by
  rw [try_emplace]
  split
  · rfl
  · simp [countKey_append, countKey_cons, countKey, hne]

theorem countKey_eq_zero_of_not_containsKey (dl : DLState) (k : IRType)
    (h : containsKey dl k = false) : countKey dl k = 0 := by
  induction dl with
  | nil => rfl
  | cons e rest ih =>
    simp only [containsKey, List.any_cons, Bool.or_eq_false_iff] at h
    rw [countKey_cons, ih (by simpa [containsKey] using h.2)]
    have : ¬e.1 = k := by simpa using h.1
    simp [this]

theorem nodupKeys_try_emplace (dl : DLState) (k : IRType) (v : CType)
    (h : NodupKeys dl) : NodupKeys (try_emplace dl k v) := by
  rw [try_emplace]
  split
  · exact h
  · rename_i hc
    unfold NodupKeys at h ⊢
    rw [List.map_append, List.nodup_append]
    refine ⟨h, by simp, ?_⟩
    intro a ha hb
    simp only [List.map_cons, List.map_nil, List.mem_singleton] at hb
    subst hb
    exact hc ((containsKey_iff_mem dl a).mpr ha)

theorem countKey_eq_one_of_nodup (dl : DLState) (k : IRType)
    (hnd : NodupKeys dl) (hc : containsKey dl k = true) : countKey dl k = 1 := by
  induction dl with
  | nil => simp [containsKey] at hc
  | cons e rest ih =>
    have hnd2 := List.nodup_cons.mp hnd
    by_cases hek : e.1 = k
    · have hrest : containsKey rest k = false := by
        by_contra hcr
        rw [Bool.not_eq_false, containsKey_iff_mem] at hcr
        exact hnd2.1 (hek ▸ hcr)
      rw [countKey_cons, countKey_eq_zero_of_not_containsKey rest k hrest]
      simp [hek]
    · rw [countKey_cons]
      have hcr : containsKey rest k = true := by
        simp only [containsKey, List.any_cons, Bool.or_eq_true] at hc
        rcases hc with hc | hc
        · exact absurd (by simpa using hc) hek
        · simpa [containsKey] using hc
      rw [ih hnd2.2 hcr]
      simp [hek]

/-! ## Invariant preservation along a conversion run

Every change the converter makes to the recorder state is a
`try_emplace` whose key is the IR type just produced for a non-function
source type; such keys are never `IRType.function`-shaped.  Any recorder
predicate preserved by such emplaces is preserved by a whole run. -/

theorem map_eq_ok {α β ε : Type} {f : α → β} {x : Except ε α} {b : β}
    (h : Except.map f x = .ok b) : ∃ a, x = .ok a ∧ f a = b := by
  cases x <;> simp_all [Except.map]

/-- A recorder predicate is preserved by the callback `conv`. -/
def ConvPreserves (conv : Conv) (P : DLState → Prop) : Prop :=
  ∀ dl qt out dl', conv dl qt = .ok (out, dl') → P dl → P dl'

theorem do_convert_builtin_not_function (b : BuiltinKind) (q : Quals) (t : IRType)
    (h : do_convert_builtin b q = .ok t) : ∀ args r, t ≠ .function args r := by
  intro args r
  cases b <;>
    simp [do_convert_builtin, isVoidType, isBooleanType, isIntegerType,
      isFloatingType, get_integer_kind, get_floating_kind] at h <;>
    (subst h; simp)

theorem convert_fields_preserves {conv : Conv} {P : DLState → Prop}
    (hconv : ConvPreserves conv P) :
    ∀ (fs : List (String × CQualType)) (dl : DLState) res dl',
      convert_fields conv fs dl = .ok (res, dl') → P dl → P dl' := by
  intro fs
  induction fs with
  | nil => intro dl res dl' h hp; simp only [convert_fields] at h; cases h; exact hp
  | cons f rest ih =>
    intro dl res dl' h hp
    obtain ⟨fn, ft⟩ := f
    simp only [convert_fields] at h
    cases hc : conv dl ft with
    | error e => simp [hc] at h
    | ok r =>
      obtain ⟨t, dlA⟩ := r
      simp only [hc] at h
      cases hr : convert_fields conv rest dlA with
      | error e => simp [hr] at h
      | ok r' =>
        obtain ⟨ts, dlB⟩ := r'
        simp only [hr] at h
        cases h
        exact ih _ _ _ hr (hconv _ _ _ _ hc hp)

theorem convert_params_preserves {conv : Conv} {P : DLState → Prop}
    (hconv : ConvPreserves conv P) :
    ∀ (ps : List CQualType) (dl : DLState) res dl',
      convert_params conv ps dl = .ok (res, dl') → P dl → P dl' := by
  intro ps
  induction ps with
  | nil => intro dl res dl' h hp; simp only [convert_params] at h; cases h; exact hp
  | cons p rest ih =>
    intro dl res dl' h hp
    simp only [convert_params] at h
    cases hc : conv dl p with
    | error e => simp [hc] at h
    | ok r =>
      obtain ⟨t, dlA⟩ := r
      simp only [hc] at h
      cases hr : convert_params conv rest dlA with
      | error e => simp [hr] at h
      | ok r' =>
        obtain ⟨ts, dlB⟩ := r'
        simp only [hr] at h
        cases h
        exact ih _ _ _ hr (hconv _ _ _ _ hc hp)

theorem do_convert_pointer_preserves {ctx : Ctx} {conv : Conv} {P : DLState → Prop}
    (hconv : ConvPreserves conv P) (dl : DLState) (p : CQualType) (quals : Quals)
    (out : IRType) (dl' : DLState)
    (h : do_convert_pointer ctx conv dl p quals = .ok (out, dl')) (hp : P dl) : P dl' := by
  simp only [do_convert_pointer] at h
  obtain ⟨⟨cp, dlA⟩, hr, hmap⟩ := map_eq_ok h
  cases hmap
  revert hr
  split
  · split
    · intro hr; cases hr; exact hp
    · intro hr; exact hconv _ _ _ _ hr hp
  · intro hr; exact hconv _ _ _ _ hr hp

theorem do_convert_record_preserves {ctx : Ctx} {conv : Conv} {P : DLState → Prop}
    (hconv : ConvPreserves conv P) (dl : DLState) (nm : Option String) (quals : Quals)
    (out : IRType) (dl' : DLState)
    (h : do_convert_record ctx conv dl nm quals = .ok (out, dl')) (hp : P dl) : P dl' := by
  cases nm with
  | none => simp only [do_convert_record] at h; cases h
  | some name =>
    simp only [do_convert_record] at h
    split at h
    · cases h; exact hp
    · split at h
      · obtain ⟨⟨fs, dlA⟩, hr, hmap⟩ := map_eq_ok h
        cases hmap
        exact convert_fields_preserves hconv _ dl fs dlA hr hp
      · cases h

theorem convert_function_type_preserves {conv : Conv} {P : DLState → Prop}
    (hconv : ConvPreserves conv P) (dl : DLState) (proto : Bool)
    (params : List CQualType) (ret : CQualType) (out : IRType) (dl' : DLState)
    (h : convert_function_type conv dl proto params ret = .ok (out, dl')) (hp : P dl) :
    P dl' := by
  unfold convert_function_type at h
  cases hpr : (if proto then convert_params conv params dl else .ok ([], dl)) with
  | error e => rw [hpr] at h; cases h
  | ok ra =>
    obtain ⟨args, dlA⟩ := ra
    rw [hpr] at h
    obtain ⟨⟨rt, dlB⟩, hr, hmap⟩ := map_eq_ok h
    cases hmap
    have hpa : P dlA := by
      by_cases hp' : proto
      · rw [if_pos hp'] at hpr
        exact convert_params_preserves hconv params dl args dlA hpr hp
      · rw [if_neg hp'] at hpr; cases hpr; exact hp
    exact hconv dlA ret rt dlB hr hpa

theorem do_convert_preserves {ctx : Ctx} {conv : Conv} {P : DLState → Prop}
    (hconv : ConvPreserves conv P) (dl : DLState) (ty : CType) (quals : Quals)
    (out : IRType) (dl' : DLState)
    (h : do_convert ctx conv dl ty quals = .ok (out, dl')) (hp : P dl) : P dl' := by
  cases hdes : desugar ty
  case builtin b =>
    rw [do_convert_eq_builtin ctx conv dl ty quals hdes] at h
    obtain ⟨t, _, hmap⟩ := map_eq_ok h
    cases hmap; exact hp
  case pointer p =>
    rw [do_convert_eq_pointer ctx conv dl ty quals hdes] at h
    exact do_convert_pointer_preserves hconv dl p quals out dl' h hp
  case record nm =>
    rw [do_convert_eq_record ctx conv dl ty quals hdes] at h
    exact do_convert_record_preserves hconv dl nm quals out dl' h hp
  case enum nm =>
    rw [do_convert_eq_enum ctx conv dl ty quals hdes] at h
    obtain ⟨t, _, hmap⟩ := map_eq_ok h
    cases hmap; exact hp
  case constantArray element size =>
    rw [do_convert_eq_array ctx conv dl ty quals hdes] at h
    simp only [do_convert_array] at h
    obtain ⟨⟨et, dlA⟩, hr, hmap⟩ := map_eq_ok h
    cases hmap
    exact hconv _ _ _ _ hr hp
  case function proto params ret =>
    rw [do_convert_eq_function ctx conv dl ty quals hdes] at h
    exact convert_function_type_preserves hconv dl proto params ret out dl' h hp
  case elaborated named =>
    rw [do_convert_eq_elaborated ctx conv dl ty quals hdes] at h
    cases h
  case unsupported =>
    rw [do_convert_eq_unsupported ctx conv dl ty quals hdes] at h
    cases h

/-- For a non-function source type, the IR type produced by `do_convert`
is never `IRType.function`-shaped (so the key recorded for it cannot
collide with a function IR type). -/
theorem do_convert_not_function {ctx : Ctx} {conv : Conv} {dl : DLState} {ty : CType}
    {quals : Quals} {out : IRType} {dl' : DLState}
    (h : do_convert ctx conv dl ty quals = .ok (out, dl'))
    (hf : ty.isFunctionType = false) : ∀ args r, out ≠ .function args r := by
  cases hdes : desugar ty
  case builtin b =>
    rw [do_convert_eq_builtin ctx conv dl ty quals hdes] at h
    obtain ⟨t, hb, hmap⟩ := map_eq_ok h
    cases hmap
    exact do_convert_builtin_not_function b quals _ hb
  case pointer p =>
    rw [do_convert_eq_pointer ctx conv dl ty quals hdes] at h
    simp only [do_convert_pointer] at h
    obtain ⟨⟨cp, dlA⟩, _, hmap⟩ := map_eq_ok h
    cases hmap
    intro args r
    simp
  case record nm =>
    rw [do_convert_eq_record ctx conv dl ty quals hdes] at h
    cases nm with
    | none => simp only [do_convert_record] at h; cases h
    | some name =>
      simp only [do_convert_record] at h
      split at h
      · cases h; intro args r; simp
      · split at h
        · obtain ⟨⟨fs, dlA⟩, _, hmap⟩ := map_eq_ok h
          cases hmap
          intro args r
          simp
        · cases h
  case enum nm =>
    rw [do_convert_eq_enum ctx conv dl ty quals hdes] at h
    cases nm with
    | none => simp [do_convert_enum, Except.map] at h
    | some name =>
      simp only [do_convert_enum] at h
      obtain ⟨t, ht, hmap⟩ := map_eq_ok h
      cases hmap
      cases ht
      intro args r
      simp
  case constantArray element size =>
    rw [do_convert_eq_array ctx conv dl ty quals hdes] at h
    simp only [do_convert_array] at h
    obtain ⟨⟨et, dlA⟩, _, hmap⟩ := map_eq_ok h
    cases hmap
    intro args r
    simp
  case function proto params ret =>
    simp [CType.isFunctionType, hdes] at hf
  case elaborated named =>
    rw [do_convert_eq_elaborated ctx conv dl ty quals hdes] at h
    cases h
  case unsupported =>
    rw [do_convert_eq_unsupported ctx conv dl ty quals hdes] at h
    cases h

theorem convert_step_preserves {ctx : Ctx} {conv : Conv} {P : DLState → Prop}
    (hstep : ∀ dl k v, (∀ args r, k ≠ IRType.function args r) → P dl → P (try_emplace dl k v))
    (hconv : ConvPreserves conv P) (dl : DLState) (ty : CType) (quals : Quals)
    (out : IRType) (dl' : DLState)
    (h : convert_step ctx conv dl ty quals = .ok (out, dl')) (hp : P dl) : P dl' := by
  unfold convert_step at h
  cases hdc : do_convert ctx conv dl ty quals with
  | error e => simp [hdc] at h
  | ok r =>
    obtain ⟨out0, dlm⟩ := r
    simp only [hdc] at h
    have hpm : P dlm := do_convert_preserves hconv dl ty quals out0 dlm hdc hp
    by_cases hf : ty.isFunctionType = true
    · rw [if_pos hf] at h
      cases h
      exact hpm
    · rw [if_neg hf] at h
      cases h
      exact hstep _ _ _ (do_convert_not_function hdc (by simpa using hf)) hpm

/-- Any recorder predicate preserved by `try_emplace` with a
non-function-shaped key is preserved by a whole conversion run. -/
theorem convert_preserves (P : DLState → Prop)
    (hstep : ∀ dl k v, (∀ args r, k ≠ IRType.function args r) → P dl → P (try_emplace dl k v)) :
    ∀ (fuel : Nat) (ctx : Ctx), ConvPreserves (convert fuel ctx) P := by
  intro fuel
  induction fuel with
  | zero =>
    intro ctx dl qt out dl' h
    simp [convert, dl_aware_convert] at h
  | succ fuel ih =>
    intro ctx dl qt out dl' h hp
    rw [convert, dl_aware_convert_succ] at h
    exact convert_step_preserves hstep (ih ctx) dl qt.ty qt.quals out dl' h hp

/-! ## Monotonicity, nodup keys, and function-key stability of a run -/

/-- Every key of `dl` is a key of `dl2`. -/
def SupKeys (dl dl2 : DLState) : Prop :=
  ∀ k, containsKey dl k = true → containsKey dl2 k = true

/-- The callback never removes recorder keys. -/
def ConvMono (conv : Conv) : Prop :=
  ∀ dl qt out dl', conv dl qt = .ok (out, dl') → SupKeys dl dl'

theorem convert_mono (fuel : Nat) (ctx : Ctx) : ConvMono (convert fuel ctx) := by
  intro dl qt out dl' h k hk
  exact @convert_preserves (fun d => containsKey d k = true)
    (fun d key v _ hq => containsKey_try_emplace_mono d key k v hq)
    fuel ctx dl qt out dl' h hk

theorem convert_nodupKeys (fuel : Nat) (ctx : Ctx) (dl : DLState) (qt : CQualType)
    (out : IRType) (dl' : DLState) (h : convert fuel ctx dl qt = .ok (out, dl'))
    (hnd : NodupKeys dl) : NodupKeys dl' :=
  @convert_preserves NodupKeys (fun d k v _ hq => nodupKeys_try_emplace d k v hq)
    fuel ctx dl qt out dl' h hnd

/-- A conversion run never records an entry keyed by a function IR type:
the count of any function-shaped key is unchanged. -/
theorem convert_countKey_function (fuel : Nat) (ctx : Ctx) (dl : DLState) (qt : CQualType)
    (out : IRType) (dl' : DLState) (h : convert fuel ctx dl qt = .ok (out, dl'))
    (args0 : List IRType) (r0 : IRType) :
    countKey dl' (.function args0 r0) = countKey dl (.function args0 r0) :=
  @convert_preserves (fun d => countKey d (.function args0 r0) = countKey dl (.function args0 r0))
    (fun d k v hk hq => by
      show countKey (try_emplace d k v) (.function args0 r0) =
        countKey dl (.function args0 r0)
      rw [countKey_try_emplace_of_ne d k (.function args0 r0) v (hk args0 r0)]
      exact hq)
    fuel ctx dl qt out dl' h rfl

/-! ## Stability: re-running a conversion from a state that already
contains every key the run recorded returns the same IR type and leaves
the state unchanged.  This is the heart of the recorder's idempotence. -/

/-- Re-running the callback from a key-superset of its final state is a
no-op on the state and returns the same value. -/
def ConvStable (conv : Conv) : Prop :=
  ∀ dl qt out dl', conv dl qt = .ok (out, dl') →
    ∀ dl2, SupKeys dl' dl2 → conv dl2 qt = .ok (out, dl2)

theorem convert_fields_mono {conv : Conv} (hm : ConvMono conv) :
    ∀ (fs : List (String × CQualType)) (dl : DLState) res dl',
      convert_fields conv fs dl = .ok (res, dl') → SupKeys dl dl' := by
  intro fs dl res dl' h k hk
  exact @convert_fields_preserves conv (fun d => containsKey d k = true)
    (fun d qt o d2 hh hp => hm d qt o d2 hh k hp) fs dl res dl' h hk

theorem convert_params_mono {conv : Conv} (hm : ConvMono conv) :
    ∀ (ps : List CQualType) (dl : DLState) res dl',
      convert_params conv ps dl = .ok (res, dl') → SupKeys dl dl' := by
  intro ps dl res dl' h k hk
  exact @convert_params_preserves conv (fun d => containsKey d k = true)
    (fun d qt o d2 hh hp => hm d qt o d2 hh k hp) ps dl res dl' h hk

theorem convert_fields_stable {conv : Conv} (hm : ConvMono conv) (hs : ConvStable conv) :
    ∀ (fs : List (String × CQualType)) (dl : DLState) res dl',
      convert_fields conv fs dl = .ok (res, dl') →
      ∀ dl2, SupKeys dl' dl2 → convert_fields conv fs dl2 = .ok (res, dl2) := by
  intro fs
  induction fs with
  | nil =>
    intro dl res dl' h dl2 hsup
    simp only [convert_fields] at h ⊢
    cases h
    rfl
  | cons f rest ih =>
    intro dl res dl' h dl2 hsup
    obtain ⟨fn, ft⟩ := f
    simp only [convert_fields] at h ⊢
    cases hc : conv dl ft with
    | error e => simp [hc] at h
    | ok r =>
      obtain ⟨t, dlA⟩ := r
      simp only [hc] at h
      cases hr : convert_fields conv rest dlA with
      | error e => simp [hr] at h
      | ok r2 =>
        obtain ⟨ts, dlB⟩ := r2
        simp only [hr] at h
        cases h
        have hA : SupKeys dlA dl2 :=
          fun k hk => hsup k (convert_fields_mono hm rest dlA ts _ hr k hk)
        have hc2 : conv dl2 ft = .ok (t, dl2) := hs dl ft t dlA hc dl2 hA
        have hr2 : convert_fields conv rest dl2 = .ok (ts, dl2) :=
          ih dlA ts _ hr dl2 hsup
        simp only [hc2, hr2]

theorem convert_params_stable {conv : Conv} (hm : ConvMono conv) (hs : ConvStable conv) :
    ∀ (ps : List CQualType) (dl : DLState) res dl',
      convert_params conv ps dl = .ok (res, dl') →
      ∀ dl2, SupKeys dl' dl2 → convert_params conv ps dl2 = .ok (res, dl2) := by
  intro ps
  induction ps with
  | nil =>
    intro dl res dl' h dl2 hsup
    simp only [convert_params] at h ⊢
    cases h
    rfl
  | cons p rest ih =>
    intro dl res dl' h dl2 hsup
    simp only [convert_params] at h ⊢
    cases hc : conv dl p with
    | error e => simp [hc] at h
    | ok r =>
      obtain ⟨t, dlA⟩ := r
      simp only [hc] at h
      cases hr : convert_params conv rest dlA with
      | error e => simp [hr] at h
      | ok r2 =>
        obtain ⟨ts, dlB⟩ := r2
        simp only [hr] at h
        cases h
        have hA : SupKeys dlA dl2 :=
          fun k hk => hsup k (convert_params_mono hm rest dlA ts _ hr k hk)
        have hc2 : conv dl2 p = .ok (t, dl2) := hs dl p t dlA hc dl2 hA
        have hr2 : convert_params conv rest dl2 = .ok (ts, dl2) :=
          ih dlA ts _ hr dl2 hsup
        simp only [hc2, hr2]

theorem do_convert_stable {ctx : Ctx} {conv : Conv} (hm : ConvMono conv)
    (hs : ConvStable conv) (dl : DLState) (ty : CType) (quals : Quals)
    (out : IRType) (dl' : DLState)
    (h : do_convert ctx conv dl ty quals = .ok (out, dl')) (dl2 : DLState)
    (hsup : SupKeys dl' dl2) : do_convert ctx conv dl2 ty quals = .ok (out, dl2) := by
  cases hdes : desugar ty
  case builtin b =>
    rw [do_convert_eq_builtin ctx conv dl ty quals hdes] at h
    rw [do_convert_eq_builtin ctx conv dl2 ty quals hdes]
    obtain ⟨t, hb, hmap⟩ := map_eq_ok h
    cases hmap
    simp [hb, Except.map]
  case pointer p =>
    rw [do_convert_eq_pointer ctx conv dl ty quals hdes] at h
    rw [do_convert_eq_pointer ctx conv dl2 ty quals hdes]
    simp only [do_convert_pointer] at h ⊢
    obtain ⟨⟨cp, dlA⟩, hr, hmap⟩ := map_eq_ok h
    cases hmap
    cases htag : tag_decl_name (pointer_pointee p).ty with
    | some tag_name =>
      simp only [htag] at hr
      by_cases hdecl : tag_name ∈ ctx.type_decls
      · rw [if_pos hdecl] at hr
        cases hr
        simp [htag, hdecl, Except.map]
      · rw [if_neg hdecl] at hr
        have hr2 := hs dl (pointer_pointee p) cp dlA hr dl2 hsup
        simp [htag, hdecl, hr2, Except.map]
    | none =>
      simp only [htag] at hr
      have hr2 := hs dl (pointer_pointee p) cp dlA hr dl2 hsup
      simp [htag, hr2, Except.map]
  case record nm =>
    rw [do_convert_eq_record ctx conv dl ty quals hdes] at h
    rw [do_convert_eq_record ctx conv dl2 ty quals hdes]
    cases nm with
    | none => simp only [do_convert_record] at h; cases h
    | some name =>
      simp only [do_convert_record] at h ⊢
      by_cases hdef : name ∈ ctx.type_defs
      · rw [if_pos hdef] at h ⊢
        cases h
        rfl
      · rw [if_neg hdef] at h ⊢
        by_cases hdecl : name ∈ ctx.type_decls
        · rw [if_pos hdecl] at h ⊢
          obtain ⟨⟨fs, dlA⟩, hr, hmap⟩ := map_eq_ok h
          cases hmap
          rw [convert_fields_stable hm hs (ctx.fields name) dl fs dlA hr dl2 hsup]
          simp [Except.map]
        · rw [if_neg hdecl] at h
          cases h
  case enum nm =>
    rw [do_convert_eq_enum ctx conv dl ty quals hdes] at h
    rw [do_convert_eq_enum ctx conv dl2 ty quals hdes]
    obtain ⟨t, ht, hmap⟩ := map_eq_ok h
    cases hmap
    simp [ht, Except.map]
  case constantArray element size =>
    rw [do_convert_eq_array ctx conv dl ty quals hdes] at h
    rw [do_convert_eq_array ctx conv dl2 ty quals hdes]
    simp only [do_convert_array] at h ⊢
    obtain ⟨⟨et, dlA⟩, hr, hmap⟩ := map_eq_ok h
    cases hmap
    rw [hs dl element et dlA hr dl2 hsup]
    simp [Except.map]
  case function proto params ret =>
    rw [do_convert_eq_function ctx conv dl ty quals hdes] at h
    rw [do_convert_eq_function ctx conv dl2 ty quals hdes]
    unfold convert_function_type at h ⊢
    cases hpr : (if proto then convert_params conv params dl else .ok ([], dl)) with
    | error e => rw [hpr] at h; cases h
    | ok ra =>
      obtain ⟨args, dlA⟩ := ra
      rw [hpr] at h
      obtain ⟨⟨rt, dlB⟩, hret, hmap⟩ := map_eq_ok h
      cases hmap
      have hsupA : SupKeys dlA dl2 :=
        fun k hk => hsup k (hm dlA ret rt _ hret k hk)
      by_cases hp2 : proto
      · rw [if_pos hp2] at hpr ⊢
        have hp3 := convert_params_stable hm hs params dl args dlA hpr dl2 hsupA
        have hret2 := hs dlA ret rt _ hret dl2 hsup
        simp only [hp3, hret2, Except.map]
      · rw [if_neg hp2] at hpr ⊢
        cases hpr
        have hret2 := hs dl ret rt _ hret dl2 hsup
        simp only [hret2, Except.map]
  case elaborated named =>
    rw [do_convert_eq_elaborated ctx conv dl ty quals hdes] at h
    cases h
  case unsupported =>
    rw [do_convert_eq_unsupported ctx conv dl ty quals hdes] at h
    cases h

theorem convert_step_stable {ctx : Ctx} {conv : Conv} (hm : ConvMono conv)
    (hs : ConvStable conv) (dl : DLState) (ty : CType) (quals : Quals)
    (out : IRType) (dl' : DLState)
    (h : convert_step ctx conv dl ty quals = .ok (out, dl')) (dl2 : DLState)
    (hsup : SupKeys dl' dl2) : convert_step ctx conv dl2 ty quals = .ok (out, dl2) := by
  unfold convert_step at h ⊢
  cases hdc : do_convert ctx conv dl ty quals with
  | error e => simp [hdc] at h
  | ok r =>
    obtain ⟨out0, dlm⟩ := r
    simp only [hdc] at h
    by_cases hf : ty.isFunctionType = true
    · rw [if_pos hf] at h
      cases h
      have hdc2 := do_convert_stable hm hs dl ty quals out dl' hdc dl2 hsup
      simp only [hdc2]
      rw [if_pos hf]
    · rw [if_neg hf] at h
      cases h
      have hsupm : SupKeys dlm dl2 :=
        fun k hk => hsup k (containsKey_try_emplace_mono dlm out k ty hk)
      have hdc2 := do_convert_stable hm hs dl ty quals out dlm hdc dl2 hsupm
      have hc2 : containsKey dl2 out = true :=
        hsup out (containsKey_try_emplace_self dlm out ty)
      simp only [hdc2]
      rw [if_neg hf, try_emplace_of_containsKey dl2 out ty hc2]

theorem convert_stable : ∀ (fuel : Nat) (ctx : Ctx), ConvStable (convert fuel ctx) := by
  intro fuel
  induction fuel with
  | zero =>
    intro ctx dl qt out dl' h
    simp [convert, dl_aware_convert] at h
  | succ fuel ih =>
    intro ctx dl qt out dl' h dl2 hsup
    rw [convert, dl_aware_convert_succ] at h
    rw [convert, dl_aware_convert_succ]
    exact convert_step_stable (convert_mono fuel ctx) (ih ctx) dl qt.ty qt.quals
      out dl' h dl2 hsup

/-! ## Branch equations for the public entry point -/

/-- The recursion-breaking test of pointer conversion, as a function:
`some nm` iff the (unwrapped) pointee is a tag type whose declaration
name `nm` is in the registry's declared set. -/
def recursion_break_name (ctx : Ctx) (t : CType) : Option String :=
  match tag_decl_name t with
  | some n => if n ∈ ctx.type_decls then some n else none
  | none => none

theorem recursion_break_name_some {ctx : Ctx} {t : CType} {nm : String}
    (h : recursion_break_name ctx t = some nm) :
    tag_decl_name t = some nm ∧ nm ∈ ctx.type_decls := by
  unfold recursion_break_name at h
  cases htag : tag_decl_name t with
  | none => simp [htag] at h
  | some n =>
    simp only [htag] at h
    by_cases hd : n ∈ ctx.type_decls
    · rw [if_pos hd] at h
      cases h
      exact ⟨rfl, hd⟩
    · rw [if_neg hd] at h
      cases h

/-- Conversion of a pointer whose pointee triggers the recursion break:
no recursive conversion happens; the result is a pointer to a name
reference, and only the pointer is recorded. -/
theorem dl_aware_pointer_break (fuel : Nat) (ctx : Ctx) (dl : DLState) (p : CQualType)
    (quals : Quals) (nm : String)
    (htag : tag_decl_name (pointer_pointee p).ty = some nm)
    (hdecl : nm ∈ ctx.type_decls) :
    dl_aware_convert (fuel + 1) ctx dl (.pointer p) quals =
      .ok (.pointer (.namedType nm) quals.const quals.volatile,
        try_emplace dl (.pointer (.namedType nm) quals.const quals.volatile) (.pointer p)) := by
  rw [dl_aware_convert_succ]
  unfold convert_step
  rw [do_convert_eq_pointer ctx (convert fuel ctx) dl (.pointer p) quals rfl]
  simp only [do_convert_pointer, htag, if_pos hdecl, Except.map]
  rfl

/-- Conversion of a pointer whose pointee does not trigger the recursion
break: the pointee is converted recursively through the public entry
point and wrapped in a pointer carrying the call's qualifier bits. -/
theorem dl_aware_pointer_recurse (fuel : Nat) (ctx : Ctx) (dl : DLState) (p : CQualType)
    (quals : Quals)
    (hno : recursion_break_name ctx (pointer_pointee p).ty = none) :
    dl_aware_convert (fuel + 1) ctx dl (.pointer p) quals =
      (convert fuel ctx dl (pointer_pointee p)).map fun r =>
        (IRType.pointer r.1 quals.const quals.volatile,
         try_emplace r.2 (IRType.pointer r.1 quals.const quals.volatile) (.pointer p)) := by
  rw [dl_aware_convert_succ]
  unfold convert_step
  rw [do_convert_eq_pointer ctx (convert fuel ctx) dl (.pointer p) quals rfl]
  unfold recursion_break_name at hno
  cases htag : tag_decl_name (pointer_pointee p).ty with
  | some n =>
    simp only [htag] at hno
    by_cases hd : n ∈ ctx.type_decls
    · rw [if_pos hd] at hno
      cases hno
    · simp only [do_convert_pointer, htag]
      rw [if_neg hd]
      cases hc : convert fuel ctx dl (pointer_pointee p) with
      | error e => simp [hc, Except.map]
      | ok r => simp [hc, Except.map, CType.isFunctionType, desugar]
  | none =>
    simp only [do_convert_pointer, htag]
    cases hc : convert fuel ctx dl (pointer_pointee p) with
    | error e => simp [hc, Except.map]
    | ok r => simp [hc, Except.map, CType.isFunctionType, desugar]

/-- Conversion of a record already in the defined set: a bare name
reference, no body expansion. -/
theorem dl_aware_record_defined (fuel : Nat) (ctx : Ctx) (dl : DLState) (name : String)
    (quals : Quals) (hdef : name ∈ ctx.type_defs) :
    dl_aware_convert (fuel + 1) ctx dl (.record (some name)) quals =
      .ok (.namedType name, try_emplace dl (.namedType name) (.record (some name))) := by
  rw [dl_aware_convert_succ]
  unfold convert_step
  rw [do_convert_eq_record ctx (convert fuel ctx) dl (.record (some name)) quals rfl]
  simp only [do_convert_record, if_pos hdef]
  rfl

/-- Conversion of a record that is neither defined nor declared: the
`CHECK` fires. -/
theorem dl_aware_record_undeclared (fuel : Nat) (ctx : Ctx) (dl : DLState) (name : String)
    (quals : Quals) (hdef : name ∉ ctx.type_defs) (hdecl : name ∉ ctx.type_decls) :
    dl_aware_convert (fuel + 1) ctx dl (.record (some name)) quals =
      .error .declarationOrderViolation := by
  rw [dl_aware_convert_succ]
  unfold convert_step
  rw [do_convert_eq_record ctx (convert fuel ctx) dl (.record (some name)) quals rfl]
  simp only [do_convert_record, if_neg hdef, if_neg hdecl]

/-- Conversion of a declared-but-not-defined record: every field is
converted in declaration order (with its own qualifiers) and the result
is the ordered `Record`. -/
theorem dl_aware_record_expand (fuel : Nat) (ctx : Ctx) (dl : DLState) (name : String)
    (quals : Quals) (hdef : name ∉ ctx.type_defs) (hdecl : name ∈ ctx.type_decls) :
    dl_aware_convert (fuel + 1) ctx dl (.record (some name)) quals =
      (convert_fields (convert fuel ctx) (ctx.fields name) dl).map fun r =>
        (IRType.record r.1, try_emplace r.2 (IRType.record r.1) (.record (some name))) := by
  rw [dl_aware_convert_succ]
  unfold convert_step
  rw [do_convert_eq_record ctx (convert fuel ctx) dl (.record (some name)) quals rfl]
  simp only [do_convert_record, if_neg hdef, if_pos hdecl]
  cases hc : convert_fields (convert fuel ctx) (ctx.fields name) dl with
  | error e => simp [hc, Except.map]
  | ok r => simp [hc, Except.map, CType.isFunctionType, desugar]

/-! ## The claims -/

/-- Qualifier-free occurrence. -/
def noQuals : Quals := ⟨false, false⟩

/-- Witness context: `struct S { struct S *next; };` with `S` declared
but not yet defined. -/
def ctxS : Ctx :=
  ⟨["S"], [],
   fun _ => [("next", .mk noQuals (.pointer (.mk noQuals (.record (some "S")))))]⟩

/-- Witness context with `S` both declared and defined. -/
def ctxDef : Ctx := ⟨["S"], ["S"], fun _ => []⟩

/-- Claim C1: for a record containing a pointer to itself, with the record's
name in the declared set (and not yet defined) before the fields are
converted, conversion terminates (2 units of fuel suffice) and the
self-referential field converts to `Pointer(NamedType(self_name))`, so
`struct S { struct S *next; }` yields
`Record([("next", Pointer(NamedType("S")))])`. -/
theorem claim_C1 (fuel : Nat) (ctx : Ctx) (dl : DLState) (s : String) (q fq pq : Quals)
    (hdecl : s ∈ ctx.type_decls) (hdef : s ∉ ctx.type_defs)
    (hfields : ctx.fields s = [("next", .mk fq (.pointer (.mk pq (.record (some s)))))]) :
    ∃ dl', dl_aware_convert (fuel + 2) ctx dl (.record (some s)) q =
      .ok (.record [("next", .pointer (.namedType s) fq.const fq.volatile)], dl') := by
  refine ⟨try_emplace
      (try_emplace dl (.pointer (.namedType s) fq.const fq.volatile)
        (.pointer (.mk pq (.record (some s)))))
      (.record [("next", .pointer (.namedType s) fq.const fq.volatile)])
      (.record (some s)), ?_⟩
  show dl_aware_convert (fuel + 1 + 1) ctx dl (.record (some s)) q = _
  rw [dl_aware_record_expand (fuel + 1) ctx dl s q hdef hdecl, hfields]
  simp only [convert_fields]
  have hconv1 : convert (fuel + 1) ctx dl
      (.mk fq (.pointer (.mk pq (.record (some s))))) =
      .ok (.pointer (.namedType s) fq.const fq.volatile,
        try_emplace dl (.pointer (.namedType s) fq.const fq.volatile)
          (.pointer (.mk pq (.record (some s))))) :=
    dl_aware_pointer_break fuel ctx dl (.mk pq (.record (some s))) fq s rfl hdecl
  simp only [hconv1, convert_fields, Except.map]

/-- Claim C2: pointer conversion either breaks recursion — when the pointee,
after unwrapping one level of elaborated sugar, is a tag type whose
name is in the declared set, the pointee is not converted and the
result is `Pointer(NamedType(name), quals.const, quals.volatile)` — or
otherwise converts the pointee recursively through the public entry
point and wraps it in a `Pointer` carrying the call's qualifier bits. -/
theorem claim_C2 (fuel : Nat) (ctx : Ctx) (dl : DLState) (p : CQualType) (quals : Quals) :
    (∀ nm, recursion_break_name ctx (pointer_pointee p).ty = some nm →
      dl_aware_convert (fuel + 1) ctx dl (.pointer p) quals =
        .ok (.pointer (.namedType nm) quals.const quals.volatile,
          try_emplace dl (.pointer (.namedType nm) quals.const quals.volatile)
            (.pointer p)))
    ∧ (recursion_break_name ctx (pointer_pointee p).ty = none →
      dl_aware_convert (fuel + 1) ctx dl (.pointer p) quals =
        (convert fuel ctx dl (pointer_pointee p)).map fun r =>
          (IRType.pointer r.1 quals.const quals.volatile,
           try_emplace r.2 (IRType.pointer r.1 quals.const quals.volatile)
             (.pointer p))) := by
  constructor
  · intro nm hbrk
    obtain ⟨htag, hdecl⟩ := recursion_break_name_some hbrk
    exact dl_aware_pointer_break fuel ctx dl p quals nm htag hdecl
  · intro hno
    exact dl_aware_pointer_recurse fuel ctx dl p quals hno

/-- Claim C3: converting a named record absent from the defined set fails
with the declaration-order `CHECK` when the name is also absent from
the declared set; when the name is declared, the conversion is exactly
the in-order conversion of every member field (each with its own
qualifiers) wrapped into a `Record`. -/
theorem claim_C3 (fuel : Nat) (ctx : Ctx) (dl : DLState) (name : String) (quals : Quals)
    (hdef : name ∉ ctx.type_defs) :
    (name ∉ ctx.type_decls →
      dl_aware_convert (fuel + 1) ctx dl (.record (some name)) quals =
        .error .declarationOrderViolation)
    ∧ (name ∈ ctx.type_decls →
      dl_aware_convert (fuel + 1) ctx dl (.record (some name)) quals =
        (convert_fields (convert fuel ctx) (ctx.fields name) dl).map fun r =>
          (IRType.record r.1, try_emplace r.2 (IRType.record r.1) (.record (some name)))) :=
  ⟨fun hdecl => dl_aware_record_undeclared fuel ctx dl name quals hdef hdecl,
   fun hdecl => dl_aware_record_expand fuel ctx dl name quals hdef hdecl⟩

/-- Claim C4: for a record whose name is in the defined set, conversion does
not expand the body and returns `NamedType(name)`; converting it a
second time returns `NamedType(name)` again and leaves the recorder
state untouched. -/
theorem claim_C4 (fuel : Nat) (ctx : Ctx) (dl : DLState) (name : String) (quals : Quals)
    (hdef : name ∈ ctx.type_defs) :
    ∃ dl', dl_aware_convert (fuel + 1) ctx dl (.record (some name)) quals =
        .ok (.namedType name, dl')
      ∧ dl_aware_convert (fuel + 1) ctx dl' (.record (some name)) quals =
        .ok (.namedType name, dl') := by
  refine ⟨try_emplace dl (.namedType name) (.record (some name)),
    dl_aware_record_defined fuel ctx dl name quals hdef, ?_⟩
  rw [dl_aware_record_defined fuel ctx _ name quals hdef,
    try_emplace_of_containsKey _ _ _ (containsKey_try_emplace_self dl _ _)]

theorem claim_C1_witness :
    ∃ dl', dl_aware_convert 2 ctxS [] (.record (some "S")) noQuals =
      .ok (.record [("next", .pointer (.namedType "S") false false)], dl') :=
  claim_C1 0 ctxS [] "S" noQuals noQuals noQuals (by decide) (by decide) rfl

theorem claim_C2_witness :
    (dl_aware_convert 1 ctxS [] (.pointer (.mk noQuals (.record (some "S")))) ⟨true, false⟩ =
      .ok (.pointer (.namedType "S") true false,
        try_emplace [] (.pointer (.namedType "S") true false)
          (.pointer (.mk noQuals (.record (some "S"))))))
    ∧ (dl_aware_convert 1 ctxS [] (.pointer (.mk noQuals (.builtin .int))) ⟨false, true⟩ =
      (convert 0 ctxS [] (pointer_pointee (.mk noQuals (.builtin .int)))).map fun r =>
        (IRType.pointer r.1 false true,
         try_emplace r.2 (IRType.pointer r.1 false true)
           (.pointer (.mk noQuals (.builtin .int))))) :=
  ⟨(claim_C2 0 ctxS [] _ _).1 "S" (by decide),
   (claim_C2 0 ctxS [] _ _).2 (by decide)⟩

theorem claim_C3_witness :
    (dl_aware_convert 1 ctxS [] (.record (some "T")) noQuals =
      .error .declarationOrderViolation)
    ∧ (dl_aware_convert 1 ctxS [] (.record (some "S")) noQuals =
        (convert_fields (convert 0 ctxS) (ctxS.fields "S") []).map fun r =>
          (IRType.record r.1, try_emplace r.2 (IRType.record r.1) (.record (some "S")))) :=
  ⟨(claim_C3 0 ctxS [] "T" noQuals (by decide)).1 (by decide),
   (claim_C3 0 ctxS [] "S" noQuals (by decide)).2 (by decide)⟩

theorem claim_C4_witness :
    ∃ dl', dl_aware_convert 1 ctxDef [] (.record (some "S")) noQuals =
        .ok (.namedType "S", dl')
      ∧ dl_aware_convert 1 ctxDef dl' (.record (some "S")) noQuals =
        .ok (.namedType "S", dl') :=
  claim_C4 0 ctxDef [] "S" noQuals (by decide)

theorem isFunctionType_iff (t : CType) :
    t.isFunctionType = true ↔ ∃ proto params ret, desugar t = .function proto params ret := by
  cases hdes : desugar t <;> simp [CType.isFunctionType, hdes]

theorem do_convert_function_shape {ctx : Ctx} {conv : Conv} {dl : DLState} {ty : CType}
    {quals : Quals} {out : IRType} {dl' : DLState}
    (h : do_convert ctx conv dl ty quals = .ok (out, dl'))
    (hf : ty.isFunctionType = true) : ∃ args r, out = .function args r := by
  obtain ⟨proto, params, ret, hdes⟩ := (isFunctionType_iff ty).mp hf
  rw [do_convert_eq_function ctx conv dl ty quals hdes] at h
  unfold convert_function_type at h
  cases hpr : (if proto then convert_params conv params dl else .ok ([], dl)) with
  | error e => rw [hpr] at h; cases h
  | ok ra =>
    obtain ⟨args, dlA⟩ := ra
    rw [hpr] at h
    obtain ⟨⟨rt, dlB⟩, _, hmap⟩ := map_eq_ok h
    cases hmap
    exact ⟨args, rt, rfl⟩

/-- Claim C5: a successful top-level convert call on a non-function source
type leaves exactly one recorder entry keyed by the produced IR type
(starting from a duplicate-free recorder), and converting the same type
again returns the same IR type and leaves the recorder exactly as it
was — the recording is idempotent.  For a function source type no entry
keyed by the produced (function) IR type is ever recorded. -/
theorem claim_C5 (fuel : Nat) (ctx : Ctx) (dl : DLState) (ty : CType) (quals : Quals)
    (out : IRType) (dl' : DLState)
    (h : dl_aware_convert fuel ctx dl ty quals = .ok (out, dl'))
    (hnd : NodupKeys dl) :
    (ty.isFunctionType = false →
      countKey dl' out = 1
      ∧ dl_aware_convert fuel ctx dl' ty quals = .ok (out, dl'))
    ∧ (ty.isFunctionType = true → countKey dl' out = countKey dl out) := by
  have h' : convert fuel ctx dl (.mk quals ty) = .ok (out, dl') := h
  constructor
  · intro hf
    have hcont : containsKey dl' out = true := by
      cases fuel with
      | zero => simp [dl_aware_convert] at h
      | succ fuel =>
        rw [dl_aware_convert_succ] at h
        unfold convert_step at h
        cases hdc : do_convert ctx (convert fuel ctx) dl ty quals with
        | error e => simp [hdc] at h
        | ok r =>
          obtain ⟨out0, dlm⟩ := r
          simp only [hdc] at h
          rw [if_neg (by simp [hf])] at h
          cases h
          exact containsKey_try_emplace_self dlm out ty
    refine ⟨countKey_eq_one_of_nodup dl' out
      (convert_nodupKeys fuel ctx dl (.mk quals ty) out dl' h' hnd) hcont, ?_⟩
    exact convert_stable fuel ctx dl (.mk quals ty) out dl' h' dl' (fun k hk => hk)
  · intro hf
    obtain ⟨args, r, rfl⟩ : ∃ args r, out = .function args r := by
      cases fuel with
      | zero => simp [dl_aware_convert] at h
      | succ fuel =>
        rw [dl_aware_convert_succ] at h
        unfold convert_step at h
        cases hdc : do_convert ctx (convert fuel ctx) dl ty quals with
        | error e => simp [hdc] at h
        | ok r0 =>
          obtain ⟨out0, dlm⟩ := r0
          simp only [hdc] at h
          rw [if_pos hf] at h
          cases h
          exact do_convert_function_shape hdc hf
    exact convert_countKey_function fuel ctx dl (.mk quals ty) _ dl' h' args r

theorem claim_C5_witness :
    (((CType.builtin .int).isFunctionType = false →
      countKey [(.integer .int false false false, .builtin .int)]
        (.integer .int false false false) = 1
      ∧ dl_aware_convert 1 ctxS [(.integer .int false false false, .builtin .int)]
          (.builtin .int) noQuals =
        .ok (.integer .int false false false,
          [(.integer .int false false false, .builtin .int)]))
    ∧ ((CType.builtin .int).isFunctionType = true →
      countKey [(.integer .int false false false, .builtin .int)]
        (.integer .int false false false) = countKey [] (.integer .int false false false)))
    ∧ (((CType.function true [.mk noQuals (.builtin .int)]
          (.mk noQuals (.builtin .bool))).isFunctionType = false →
      countKey [(.integer .int false false false, .builtin .int),
          (.bool false false, .builtin .bool)]
        (.function [.integer .int false false false] (.bool false false)) = 1
      ∧ dl_aware_convert 2 ctxS
          [(.integer .int false false false, .builtin .int),
           (.bool false false, .builtin .bool)]
          (.function true [.mk noQuals (.builtin .int)] (.mk noQuals (.builtin .bool)))
          noQuals =
        .ok (.function [.integer .int false false false] (.bool false false),
          [(.integer .int false false false, .builtin .int),
           (.bool false false, .builtin .bool)]))
    ∧ ((CType.function true [.mk noQuals (.builtin .int)]
          (.mk noQuals (.builtin .bool))).isFunctionType = true →
      countKey [(.integer .int false false false, .builtin .int),
          (.bool false false, .builtin .bool)]
        (.function [.integer .int false false false] (.bool false false)) =
      countKey [] (.function [.integer .int false false false] (.bool false false)))) :=
  ⟨claim_C5 1 ctxS [] (.builtin .int) noQuals (.integer .int false false false)
      [(.integer .int false false false, .builtin .int)] rfl (by simp [NodupKeys]),
   claim_C5 2 ctxS []
      (.function true [.mk noQuals (.builtin .int)] (.mk noQuals (.builtin .bool))) noQuals
      (.function [.integer .int false false false] (.bool false false))
      [(.integer .int false false false, .builtin .int),
       (.bool false false, .builtin .bool)] rfl (by simp [NodupKeys])⟩

/-- Claim C6: builtin integer conversion classifies by canonical width class
with unsignedness as a separate bit: `const unsigned long` converts to
`Integer(Long)(unsigned=true, const=true, volatile=false)`, and all
four char-family builtins map to the `Char` kind, signedness captured
only in the separate unsigned bit. -/
theorem claim_C6 :
    (∀ (fuel : Nat) (ctx : Ctx) (dl : DLState),
      dl_aware_convert (fuel + 1) ctx dl (.builtin .ulong) ⟨true, false⟩ =
        .ok (.integer .long true true false,
          try_emplace dl (.integer .long true true false) (.builtin .ulong)))
    ∧ ∀ q : Quals,
      do_convert_builtin .char_u q = .ok (.integer .char true q.const q.volatile)
      ∧ do_convert_builtin .uchar q = .ok (.integer .char true q.const q.volatile)
      ∧ do_convert_builtin .char_s q = .ok (.integer .char false q.const q.volatile)
      ∧ do_convert_builtin .schar q = .ok (.integer .char false q.const q.volatile) := by
  constructor
  · intro fuel ctx dl
    rfl
  · intro q
    exact ⟨rfl, rfl, rfl, rfl⟩

/-- Claim C7: enum conversion fails on every anonymous enum; a named enum
always converts to `NamedType(name)`, never expanded inline, and the
qualifier argument is not attached to the produced node. -/
theorem claim_C7 (fuel : Nat) (ctx : Ctx) (dl : DLState) (quals : Quals) :
    dl_aware_convert (fuel + 1) ctx dl (.enum none) quals =
      .error .unsupportedAnonymousEnum
    ∧ ∀ nm : String, dl_aware_convert (fuel + 1) ctx dl (.enum (some nm)) quals =
        .ok (.namedType nm, try_emplace dl (.namedType nm) (.enum (some nm))) := by
  constructor
  · rfl
  · intro nm
    rfl

/-- Erase the qualifier bits of the outermost IR node. -/
def stripTopQuals : IRType → IRType
  | .bool _ _ => .bool false false
  | .integer k u _ _ => .integer k u false false
  | .floating k _ _ => .floating k false false
  | .pointer p _ _ => .pointer p false false
  | .constantArray e n _ _ => .constantArray e n false false
  | t => t

theorem strip_map_pointer (X : ConvResult) (q1 q2 : Quals) :
    (X.map fun r => ((IRType.pointer r.1 q1.const q1.volatile), r.2)).map
        (fun r => (stripTopQuals r.1, r.2)) =
    (X.map fun r => ((IRType.pointer r.1 q2.const q2.volatile), r.2)).map
        (fun r => (stripTopQuals r.1, r.2)) := by
  cases X <;> rfl

theorem strip_map_array (X : ConvResult) (size : Nat) (q1 q2 : Quals) :
    (X.map fun r => ((IRType.constantArray r.1 size q1.const q1.volatile), r.2)).map
        (fun r => (stripTopQuals r.1, r.2)) =
    (X.map fun r => ((IRType.constantArray r.1 size q2.const q2.volatile), r.2)).map
        (fun r => (stripTopQuals r.1, r.2)) := by
  cases X <;> rfl

/-- The record rule ignores its qualifier argument. -/
theorem do_convert_record_quals (ctx : Ctx) (conv : Conv) (dl : DLState)
    (nm : Option String) (q1 q2 : Quals) :
    do_convert_record ctx conv dl nm q1 = do_convert_record ctx conv dl nm q2 := by
  cases nm <;> rfl

theorem do_convert_strip (ctx : Ctx) (conv : Conv) (dl : DLState) (ty : CType)
    (q1 q2 : Quals) :
    (do_convert ctx conv dl ty q1).map (fun r => (stripTopQuals r.1, r.2)) =
    (do_convert ctx conv dl ty q2).map (fun r => (stripTopQuals r.1, r.2)) := by
  cases hdes : desugar ty
  case builtin b =>
    rw [do_convert_eq_builtin ctx conv dl ty q1 hdes,
      do_convert_eq_builtin ctx conv dl ty q2 hdes]
    cases b <;> rfl
  case pointer p =>
    rw [do_convert_eq_pointer ctx conv dl ty q1 hdes,
      do_convert_eq_pointer ctx conv dl ty q2 hdes]
    simp only [do_convert_pointer]
    exact strip_map_pointer _ q1 q2
  case record nm =>
    rw [do_convert_eq_record ctx conv dl ty q1 hdes,
      do_convert_eq_record ctx conv dl ty q2 hdes,
      do_convert_record_quals ctx conv dl nm q1 q2]
  case enum nm =>
    rw [do_convert_eq_enum ctx conv dl ty q1 hdes,
      do_convert_eq_enum ctx conv dl ty q2 hdes]
    cases nm <;> rfl
  case constantArray element size =>
    rw [do_convert_eq_array ctx conv dl ty q1 hdes,
      do_convert_eq_array ctx conv dl ty q2 hdes]
    simp only [do_convert_array]
    exact strip_map_array _ size q1 q2
  case function proto params ret =>
    rw [do_convert_eq_function ctx conv dl ty q1 hdes,
      do_convert_eq_function ctx conv dl ty q2 hdes]
  case elaborated named =>
    rw [do_convert_eq_elaborated ctx conv dl ty q1 hdes,
      do_convert_eq_elaborated ctx conv dl ty q2 hdes]
  case unsupported =>
    rw [do_convert_eq_unsupported ctx conv dl ty q1 hdes,
      do_convert_eq_unsupported ctx conv dl ty q2 hdes]

/-- Claim C8: for the same source type and any two qualifier sets, the two
conversion results agree after erasing the qualifier bits of the
outermost produced node — the caller's qualifiers change only those
bits, never the kind or structure, and failure behaviour is
identical. -/
theorem claim_C8 (fuel : Nat) (ctx : Ctx) (dl : DLState) (ty : CType) (q1 q2 : Quals) :
    (dl_aware_convert fuel ctx dl ty q1).map (fun r => stripTopQuals r.1) =
    (dl_aware_convert fuel ctx dl ty q2).map (fun r => stripTopQuals r.1) := by
  cases fuel with
  | zero => rfl
  | succ fuel =>
    rw [dl_aware_convert_succ, dl_aware_convert_succ]
    unfold convert_step
    have hstrip := do_convert_strip ctx (convert fuel ctx) dl ty q1 q2
    cases h1 : do_convert ctx (convert fuel ctx) dl ty q1 with
    | error e =>
      cases h2 : do_convert ctx (convert fuel ctx) dl ty q2 with
      | error e2 =>
        rw [h1, h2] at hstrip
        simp only [Except.map] at hstrip
        cases hstrip
        simp only [h1, h2]
      | ok r2 =>
        rw [h1, h2] at hstrip
        simp [Except.map] at hstrip
    | ok r1 =>
      obtain ⟨o1, d1⟩ := r1
      cases h2 : do_convert ctx (convert fuel ctx) dl ty q2 with
      | error e2 =>
        rw [h1, h2] at hstrip
        simp [Except.map] at hstrip
      | ok r2 =>
        obtain ⟨o2, d2⟩ := r2
        rw [h1, h2] at hstrip
        simp only [Except.map, Except.ok.injEq, Prod.mk.injEq] at hstrip
        obtain ⟨hso, hsd⟩ := hstrip
        subst hsd
        simp only [h1, h2]
        by_cases hf : ty.isFunctionType = true
        · rw [if_pos hf, if_pos hf]
          simp [Except.map, hso]
        · rw [if_neg hf, if_neg hf]
          simp [Except.map, hso]

/-- Claim C9: record conversion ignores its qualifier argument entirely —
any two qualifier sets give identical results (value and recorder
state alike) — and every successful result is a bare `Record` or
`NamedType` node, which carry no qualifier slots, so const/volatile on
a record-typed occurrence is dropped from the IR. -/
theorem claim_C9 (fuel : Nat) (ctx : Ctx) (dl : DLState) (nm : Option String)
    (q1 q2 : Quals) :
    dl_aware_convert fuel ctx dl (.record nm) q1 =
      dl_aware_convert fuel ctx dl (.record nm) q2
    ∧ (∀ out dl', dl_aware_convert fuel ctx dl (.record nm) q1 = .ok (out, dl') →
        (∃ n, out = .namedType n) ∨ ∃ fs, out = .record fs) := by
  constructor
  · cases fuel with
    | zero => rfl
    | succ fuel =>
      rw [dl_aware_convert_succ, dl_aware_convert_succ]
      unfold convert_step
      rw [do_convert_eq_record ctx (convert fuel ctx) dl (.record nm) q1 rfl,
        do_convert_eq_record ctx (convert fuel ctx) dl (.record nm) q2 rfl,
        do_convert_record_quals ctx (convert fuel ctx) dl nm q1 q2]
  · intro out dl' h
    cases fuel with
    | zero => simp [dl_aware_convert] at h
    | succ fuel =>
      rw [dl_aware_convert_succ] at h
      unfold convert_step at h
      cases hdc : do_convert ctx (convert fuel ctx) dl (.record nm) q1 with
      | error e => simp [hdc] at h
      | ok r =>
        obtain ⟨out0, dlm⟩ := r
        simp only [hdc] at h
        have hshape : (∃ n, out0 = .namedType n) ∨ ∃ fs, out0 = .record fs := by
          rw [do_convert_eq_record ctx (convert fuel ctx) dl (.record nm) q1 rfl] at hdc
          cases nm with
          | none => simp only [do_convert_record] at hdc; cases hdc
          | some name =>
            simp only [do_convert_record] at hdc
            split at hdc
            · cases hdc
              exact .inl ⟨name, rfl⟩
            · split at hdc
              · obtain ⟨⟨fs, dlA⟩, _, hmap⟩ := map_eq_ok hdc
                cases hmap
                exact .inr ⟨fs, rfl⟩
              · cases hdc
        rw [if_neg (by simp [CType.isFunctionType, desugar])] at h
        cases h
        exact hshape

/-- Claim C10: when pointer conversion breaks recursion and produces a
`NamedType` pointee, no data-layout entry keyed by that `NamedType` is
recorded — only the enclosing `Pointer` type gets an entry. -/
theorem claim_C10 (fuel : Nat) (ctx : Ctx) (dl : DLState) (p : CQualType) (quals : Quals)
    (nm : String)
    (hbrk : recursion_break_name ctx (pointer_pointee p).ty = some nm) :
    ∃ dl', dl_aware_convert (fuel + 1) ctx dl (.pointer p) quals =
        .ok (.pointer (.namedType nm) quals.const quals.volatile, dl')
      ∧ countKey dl' (.namedType nm) = countKey dl (.namedType nm)
      ∧ containsKey dl' (.pointer (.namedType nm) quals.const quals.volatile) = true := by
  obtain ⟨htag, hdecl⟩ := recursion_break_name_some hbrk
  refine ⟨try_emplace dl (.pointer (.namedType nm) quals.const quals.volatile) (.pointer p),
    dl_aware_pointer_break fuel ctx dl p quals nm htag hdecl, ?_, ?_⟩
  · exact countKey_try_emplace_of_ne dl _ _ _ (by simp)
  · exact containsKey_try_emplace_self dl _ _

theorem claim_C9_witness :
    (dl_aware_convert 1 ctxDef [] (.record (some "S")) ⟨true, false⟩ =
      dl_aware_convert 1 ctxDef [] (.record (some "S")) ⟨false, true⟩)
    ∧ ((∃ n, (IRType.namedType "S") = IRType.namedType n)
        ∨ ∃ fs, (IRType.namedType "S") = IRType.record fs) :=
  ⟨(claim_C9 1 ctxDef [] (some "S") ⟨true, false⟩ ⟨false, true⟩).1,
   (claim_C9 1 ctxDef [] (some "S") ⟨true, false⟩ ⟨false, true⟩).2 (.namedType "S")
     [(.namedType "S", .record (some "S"))] rfl⟩

theorem claim_C10_witness :
    ∃ dl', dl_aware_convert 1 ctxS [] (.pointer (.mk noQuals (.record (some "S"))))
        noQuals = .ok (.pointer (.namedType "S") false false, dl')
      ∧ countKey dl' (.namedType "S") = countKey [] (.namedType "S")
      ∧ containsKey dl' (.pointer (.namedType "S") false false) = true :=
  claim_C10 0 ctxS [] (.mk noQuals (.record (some "S"))) noQuals "S" (by decide)

end Vast
